import Mathlib

/-!
Verification of the cross-validation orchestrator `BaseModel.cv`
(`src/models/base.py`) of the kaggle_table_template repository.

The method is embedded shallowly: pandas/numpy vectors become lists of
rationals, the abstract backend (`fit` / `get_best_iteration` / `predict` /
`get_feature_importance`) becomes a record of pure functions, and every point
where the Python code can raise (out-of-range `iloc` indexing, numpy shape
mismatches on vectorised assignment and accumulation, sklearn's
`roc_auc_score` rejecting non-binary labels) becomes an explicit failure in
`Option` / `Except`.
-/

set_option maxHeartbeats 1000000

namespace KaggleCV

/-- A pandas-style data frame: named columns, and rows each listing the values
of one record in column order.  `len(df)` is `rows.length`, `len(df.columns)`
is `cols.length`. -/
structure DataFrame where
  cols : List String
  rows : List (List ℚ)
  deriving DecidableEq, Inhabited

/-- The abstract interface of `BaseModel`: the four abstract methods a concrete
gradient-boosting wrapper implements.  `fit` returns a trained model together
with its `best_score`. -/
structure Backend (Model Config : Type) where
  fit : DataFrame → List ℚ → DataFrame → List ℚ → Config → Model × ℚ
  get_best_iteration : Model → ℤ
  predict : Model → DataFrame → List ℚ
  get_feature_importance : Model → List ℚ

/-- The arguments of one `cv` call other than the fold list: backend (`self`),
`y_train`, `train_features`, `test_features`, `feature_name`, `config`. -/
structure CvInput (Model Config : Type) where
  B : Backend Model Config
  y_train : List ℚ
  train_features : DataFrame
  test_features : DataFrame
  feature_name : List String
  config : Config

/-- The accumulators initialised before the fold loop of `cv`.
`importances` models the pandas frame indexed by feature name: one entry per
index row, holding that row's per-fold importance columns. -/
structure CvState (Model : Type) where
  test_preds : List ℚ
  oof_preds : List ℚ
  importances : List (String × List ℚ)
  best_iteration : ℚ
  cv_score_list : List ℚ
  models : List Model
  deriving DecidableEq

/-- Positional row selection (`df.iloc[idx]`, `y[idx]`): fails when an index
is out of range, as numpy/pandas raise `IndexError`. -/
def sliceRowsO (xs : List α) : List ℕ → Option (List α)
  | [] => some []
  | i :: is => do
    let v ← xs[i]?
    let rest ← sliceRowsO xs is
    pure (v :: rest)

/-- Total form of positional selection (default `d` out of range), used to
state closed forms; it agrees with `sliceRowsO` when all indices are in
range. -/
def sliceD (xs : List α) (idx : List ℕ) (d : α) : List α :=
  idx.map fun i => xs.getD i d

/-- numpy fancy-index assignment `base[idx] = vals`: write the entries of
`vals` into `base` at the positions listed in `idx`, one by one. -/
def scatterWrite (base : List ℚ) (idx : List ℕ) (vals : List ℚ) : List ℚ :=
  (idx.zip vals).foldl (fun acc p => acc.set p.1 p.2) base

/-- pandas `left.join(right, how='inner')` on the feature-name index, where
the right frame carries a single new column: an index row of the left frame
survives when its key also appears in the right frame, extended by the right
frame's value for that key. -/
def innerJoin (left : List (String × List ℚ)) (right : List (String × ℚ)) :
    List (String × List ℚ) :=
  left.filterMap fun r => (right.lookup r.1).map fun v => (r.1, r.2 ++ [v])

/-- One term of the Mann-Whitney pair count: a (positive, negative) pair of
scores contributes 1 when the positive score ranks strictly higher and 1/2 on
a tie. -/
def pairWins (a b : ℚ) : ℚ := if b < a then 1 else if a = b then 1 / 2 else 0

/-- The scores at the positions labelled 1. -/
def posScores (y s : List ℚ) : List ℚ :=
  ((y.zip s).filter fun p => decide (p.1 = 1)).map Prod.snd

/-- The scores at the positions labelled 0. -/
def negScores (y s : List ℚ) : List ℚ :=
  ((y.zip s).filter fun p => decide (p.1 = 0)).map Prod.snd

/-- The scores at the positions whose label is not 1: with `pos_label = 1`,
sklearn treats the other class of an accepted binary encoding (0 of 0/1,
-1 of -1/1) as negative. -/
def nonPosScores (y s : List ℚ) : List ℚ :=
  ((y.zip s).filter fun p => decide (p.1 ≠ 1)).map Prod.snd

/-- The Mann-Whitney pair-count numerator of the AUC. -/
def aucSum (ps ns : List ℚ) : ℚ :=
  (ps.map fun a => (ns.map fun b => pairWins a b).sum).sum

/-- The AUC value: normalised Mann-Whitney pair count of the positive
(label 1) against the negative (label other than 1) scores. -/
def aucValue (y s : List ℚ) : ℚ :=
  aucSum (posScores y s) (nonPosScores y s) /
    (((posScores y s).length : ℚ) * ((nonPosScores y s).length : ℚ))

/-- sklearn's `roc_auc_score(y_true, y_score)`, in its Mann-Whitney form
(equal to the trapezoidal area under the ROC curve).  Without an explicit
`pos_label`, sklearn accepts exactly the binary label encodings 0/1 and -1/1,
taking 1 as the positive class; it raises (`none`) when the vectors differ in
length, when the labels fit neither encoding (a third value, or a two-class
set such as 0/2), or when only one class is present. -/
def roc_auc_score (y s : List ℚ) : Option ℚ :=
  if y.length = s.length ∧
      ((∀ v ∈ y, v = 0 ∨ v = 1) ∨ (∀ v ∈ y, v = -1 ∨ v = 1)) ∧
      posScores y s ≠ [] ∧ nonPosScores y s ≠ [] then
    some (aucValue y s)
  else none

/-- Where a `cv` call can raise: inside the fold loop (indexing or shape
errors) or at the final `roc_auc_score` computation. -/
inductive CvError where
  | foldError : CvError
  | metricError : CvError
  deriving DecidableEq

/-- The evaluation report `evals_result` assembled at the end of `cv`. -/
structure EvalsResult where
  oof_score : ℚ
  cv_score : List (String × ℚ)
  n_data : ℕ
  best_iteration : ℚ
  n_features : ℕ
  feature_importance : List (String × ℚ)
  deriving DecidableEq

/-- The five values returned by `cv`. -/
structure CvResult (Model : Type) where
  models : List Model
  oof_preds : List ℚ
  test_preds : List ℚ
  feature_importance : List (String × ℚ)
  evals_result : EvalsResult
  deriving DecidableEq

/-- One iteration of the fold loop of `cv`, on the loop state: slice the fold's
train and validation data, `fit`, record score and model, accumulate the
best-iteration average, scatter the validation predictions into the
out-of-fold vector, accumulate the test predictions, and inner-join this
fold's importance column.  `k` is `len(folds_ids)`.  Failure (`none`) models
the IndexError/ValueError raises of numpy and pandas. -/
def cvStep (D : CvInput Model Config) (k : ℕ) (st : CvState Model)
    (fold : List ℕ × List ℕ) : Option (CvState Model) := do
  let x_trn ← sliceRowsO D.train_features.rows fold.1
  let y_trn ← sliceRowsO D.y_train fold.1
  let x_val ← sliceRowsO D.train_features.rows fold.2
  let y_val ← sliceRowsO D.y_train fold.2
  let mb := D.B.fit ⟨D.train_features.cols, x_trn⟩ y_trn
    ⟨D.train_features.cols, x_val⟩ y_val D.config
  let val_preds := D.B.predict mb.1 ⟨D.train_features.cols, x_val⟩
  if val_preds.length = fold.2.length ∧ ∀ i ∈ fold.2, i < st.oof_preds.length then
    let test_fold_preds := D.B.predict mb.1 D.test_features
    if test_fold_preds.length = st.test_preds.length then
      let imp := D.B.get_feature_importance mb.1
      if imp.length = D.feature_name.length then
        some { test_preds :=
                 List.zipWith (fun a b => a + b / (k : ℚ)) st.test_preds test_fold_preds
               oof_preds := scatterWrite st.oof_preds fold.2 val_preds
               importances := innerJoin st.importances (D.feature_name.zip imp)
               best_iteration := st.best_iteration + (D.B.get_best_iteration mb.1 : ℚ) / (k : ℚ)
               cv_score_list := st.cv_score_list ++ [mb.2]
               models := st.models ++ [mb.1] }
      else none
    else none
  else none

/-- The state before the fold loop: zero-filled prediction vectors sized to
the test and training sets, an importance frame holding every feature name
and no columns yet, and empty accumulators. -/
def cvInit (D : CvInput Model Config) : CvState Model :=
  { test_preds := List.replicate D.test_features.rows.length 0
    oof_preds := List.replicate D.train_features.rows.length 0
    importances := D.feature_name.map fun nm => (nm, [])
    best_iteration := 0
    cv_score_list := []
    models := [] }

/-- The descending-by-value order used by `sort_values(ascending=False)` on
the feature-importance series. -/
def impGE (a b : String × ℚ) : Prop := b.2 ≤ a.2

instance : DecidableRel impGE := fun a b => inferInstanceAs (Decidable (b.2 ≤ a.2))

instance : IsTotal (String × ℚ) impGE := ⟨fun a b => le_total b.2 a.2⟩

instance : IsTrans (String × ℚ) impGE := ⟨fun _ _ _ h₁ h₂ => le_trans h₂ h₁⟩

/-- `importances.mean(axis=1)`: the row-wise mean over the per-fold importance
columns.  (On a frame with zero columns pandas yields NaN; here the
ℚ-convention 0/0 = 0 stands in, reachable only for an empty fold list.) -/
def meanImportance (imps : List (String × List ℚ)) : List (String × ℚ) :=
  imps.map fun r => (r.1, r.2.sum / (r.2.length : ℚ))

/-- The `cv_score` report entry: `cv{i+1}` keys from enumerating the per-fold
score list. -/
def cvScoreMap (scores : List ℚ) : List (String × ℚ) :=
  scores.enum.map fun p => ("cv" ++ toString (p.1 + 1), p.2)

/-- `BaseModel.cv(y_train, train_features, test_features, feature_name,
folds_ids, config)`: run the fold loop over `folds_ids`, reduce the
importance frame by a row-wise mean, compute the out-of-fold AUC, and return
`(models, oof_preds, test_preds, feature_importance, evals_results)`. -/
def cv (D : CvInput Model Config) (folds_ids : List (List ℕ × List ℕ)) :
    Except CvError (CvResult Model) :=
  match folds_ids.foldlM (cvStep D folds_ids.length) (cvInit D) with
  | none => .error .foldError
  | some st =>
    match roc_auc_score D.y_train st.oof_preds with
    | none => .error .metricError
    | some oof_score =>
      .ok { models := st.models
            oof_preds := st.oof_preds
            test_preds := st.test_preds
            feature_importance := meanImportance st.importances
            evals_result :=
              { oof_score := oof_score
                cv_score := cvScoreMap st.cv_score_list
                n_data := D.train_features.rows.length
                best_iteration := st.best_iteration
                n_features := D.train_features.cols.length
                feature_importance :=
                  (meanImportance st.importances).insertionSort impGE } }

/-! Per-fold values.  Each fold's model, score, predictions and importances
depend only on that fold's index pair (and the fixed call arguments), never on
the loop state; the following definitions give them in closed form, using the
total slicing `sliceD` (which matches `iloc` when the indices are in range). -/

/-- The trained model and `best_score` of one fold. -/
def foldFit (D : CvInput Model Config) (fold : List ℕ × List ℕ) : Model × ℚ :=
  D.B.fit ⟨D.train_features.cols, sliceD D.train_features.rows fold.1 []⟩
    (sliceD D.y_train fold.1 0)
    ⟨D.train_features.cols, sliceD D.train_features.rows fold.2 []⟩
    (sliceD D.y_train fold.2 0) D.config

/-- The trained model of one fold. -/
def foldModel (D : CvInput Model Config) (fold : List ℕ × List ℕ) : Model :=
  (foldFit D fold).1

/-- The `best_score` returned by `fit` on one fold. -/
def foldScore (D : CvInput Model Config) (fold : List ℕ × List ℕ) : ℚ :=
  (foldFit D fold).2

/-- `predict(model, x_val)`: this fold's predictions on its validation rows. -/
def foldValPreds (D : CvInput Model Config) (fold : List ℕ × List ℕ) : List ℚ :=
  D.B.predict (foldModel D fold) ⟨D.train_features.cols, sliceD D.train_features.rows fold.2 []⟩

/-- `predict(model, test_features)`: this fold's predictions on the test set. -/
def foldTestPreds (D : CvInput Model Config) (fold : List ℕ × List ℕ) : List ℚ :=
  D.B.predict (foldModel D fold) D.test_features

/-- `get_best_iteration(model)` of this fold. -/
def foldBestIter (D : CvInput Model Config) (fold : List ℕ × List ℕ) : ℤ :=
  D.B.get_best_iteration (foldModel D fold)

/-- `get_feature_importance(model)` of this fold. -/
def foldImportance (D : CvInput Model Config) (fold : List ℕ × List ℕ) : List ℚ :=
  D.B.get_feature_importance (foldModel D fold)

/-- The preconditions of §4.2 for one fold: its train and validation indices
address rows of the training set, and the backend honours the size contracts
of §4.1 on this fold (one prediction per row, one importance per feature). -/
abbrev GoodFold (D : CvInput Model Config) (fold : List ℕ × List ℕ) : Prop :=
  (∀ i ∈ fold.1, i < D.train_features.rows.length) ∧
  (∀ i ∈ fold.1, i < D.y_train.length) ∧
  (∀ i ∈ fold.2, i < D.train_features.rows.length) ∧
  (∀ i ∈ fold.2, i < D.y_train.length) ∧
  (foldValPreds D fold).length = fold.2.length ∧
  (foldTestPreds D fold).length = D.test_features.rows.length ∧
  (foldImportance D fold).length = D.feature_name.length

/-- One fold-loop iteration as a total function on the state: the closed form
that `cvStep` takes when the fold satisfies `GoodFold`. -/
def cvStepT (D : CvInput Model Config) (k : ℕ) (st : CvState Model)
    (fold : List ℕ × List ℕ) : CvState Model :=
  { test_preds :=
      List.zipWith (fun a b => a + b / (k : ℚ)) st.test_preds (foldTestPreds D fold)
    oof_preds := scatterWrite st.oof_preds fold.2 (foldValPreds D fold)
    importances := innerJoin st.importances (D.feature_name.zip (foldImportance D fold))
    best_iteration := st.best_iteration + (foldBestIter D fold : ℚ) / (k : ℚ)
    cv_score_list := st.cv_score_list ++ [foldScore D fold]
    models := st.models ++ [foldModel D fold] }

/-- The loop state after processing a list of folds, in total closed form. -/
def cvLoopT (D : CvInput Model Config) (k : ℕ) (folds : List (List ℕ × List ℕ)) :
    CvState Model :=
  folds.foldl (cvStepT D k) (cvInit D)

/-! Basic lemmas about the helpers. -/

theorem sliceRowsO_eq_sliceD (xs : List α) (d : α) :
    ∀ idx : List ℕ, (∀ i ∈ idx, i < xs.length) →
      sliceRowsO xs idx = some (sliceD xs idx d)
  | [], _ => rfl
  | i :: is, h => by
    have hi : i < xs.length := h i (List.mem_cons_self i is)
    have hrest := sliceRowsO_eq_sliceD xs d is fun j hj => h j (List.mem_cons_of_mem i hj)
    simp [sliceRowsO, hrest, sliceD, List.getElem?_eq_getElem hi,
      List.getD_eq_getElem xs d hi]

theorem scatterWrite_length (idx : List ℕ) (vals : List ℚ) (base : List ℚ) :
    (scatterWrite base idx vals).length = base.length := by
  unfold scatterWrite
  generalize idx.zip vals = pairs
  induction pairs generalizing base with
  | nil => rfl
  | cons p ps ih => simp [List.foldl_cons, ih, List.length_set]

/-- A position not listed in `idx` is untouched by the fancy-index
assignment. -/
theorem scatterWrite_getElem?_not_mem :
    ∀ (idx : List ℕ) (vals base : List ℚ) (i : ℕ), i ∉ idx →
      (scatterWrite base idx vals)[i]? = base[i]?
  | [], _, _, _, _ => rfl
  | _ :: _, [], _, _, _ => rfl
  | j :: js, v :: vs, base, i, h => by
    have hij : j ≠ i := fun e => h (e ▸ List.mem_cons_self j js)
    have hijs : i ∉ js := fun e => h (List.mem_cons_of_mem j e)
    show (scatterWrite (base.set j v) js vs)[i]? = base[i]?
    rw [scatterWrite_getElem?_not_mem js vs _ i hijs]
    exact List.getElem?_set_ne hij

/-- A position listed (once) in `idx` receives the corresponding entry of
`vals`. -/
theorem scatterWrite_getElem?_hit :
    ∀ (idx : List ℕ) (vals base : List ℚ), idx.Nodup → vals.length = idx.length →
      ∀ (p : ℕ) (hp : p < idx.length), idx[p] < base.length →
      (scatterWrite base idx vals)[idx[p]]? = vals[p]?
  | [], _, _, _, _, p, hp, _ => absurd hp (Nat.not_lt_zero p)
  | j :: js, vals, base, hnd, hlen, p, hp, hb => by
    cases vals with
    | nil => exact absurd hlen.symm (by simp)
    | cons v vs =>
      have hstep : scatterWrite base (j :: js) (v :: vs) =
          scatterWrite (base.set j v) js vs := rfl
      rw [hstep]
      cases p with
      | zero =>
        have hjs : j ∉ js := (List.nodup_cons.mp hnd).1
        simp only [List.getElem_cons_zero, List.getElem?_cons_zero]
        rw [scatterWrite_getElem?_not_mem js vs _ _ hjs]
        exact List.getElem?_set_self (by simpa using hb)
      | succ q =>
        have hq : q < js.length := by simpa using hp
        simp only [List.getElem_cons_succ, List.getElem?_cons_succ]
        exact scatterWrite_getElem?_hit js vs (base.set j v)
          (List.nodup_cons.mp hnd).2 (by simpa using hlen) q hq
          (by simpa using hb)

/-- When a fold satisfies the preconditions, the fallible loop body takes its
total closed form. -/
theorem cvStep_eq_total (D : CvInput Model Config) (k : ℕ) (st : CvState Model)
    (fold : List ℕ × List ℕ) (hg : GoodFold D fold)
    (hoof : st.oof_preds.length = D.train_features.rows.length)
    (htest : st.test_preds.length = D.test_features.rows.length) :
    cvStep D k st fold = some (cvStepT D k st fold) := by
  obtain ⟨h1, h2, h3, h4, h5, h6, h7⟩ := hg
  have hb : ∀ i ∈ fold.2, i < st.oof_preds.length := by rw [hoof]; exact h3
  have h6s : (foldTestPreds D fold).length = st.test_preds.length := by rw [htest]; exact h6
  unfold cvStep
  rw [sliceRowsO_eq_sliceD D.train_features.rows ([]) fold.1 h1,
    sliceRowsO_eq_sliceD D.y_train (0 : ℚ) fold.1 h2,
    sliceRowsO_eq_sliceD D.train_features.rows ([]) fold.2 h3,
    sliceRowsO_eq_sliceD D.y_train (0 : ℚ) fold.2 h4]
  simp only [foldValPreds, foldTestPreds, foldImportance, foldModel, foldFit] at h5 h6s h7
  simp only [Option.bind_eq_bind, Option.some_bind, Option.pure_def]
  rw [if_pos ⟨h5, hb⟩, if_pos h6s, if_pos h7]
  simp only [cvStepT, foldValPreds, foldTestPreds, foldImportance, foldBestIter,
    foldScore, foldModel, foldFit]

/-- The total loop body preserves the length of the out-of-fold vector. -/
theorem cvStepT_oof_length (D : CvInput Model Config) (k : ℕ) (st : CvState Model)
    (fold : List ℕ × List ℕ) :
    (cvStepT D k st fold).oof_preds.length = st.oof_preds.length :=
  scatterWrite_length _ _ _

/-- The total loop body preserves the length of the test-prediction vector
when the backend returns one test prediction per test row. -/
theorem cvStepT_test_length (D : CvInput Model Config) (k : ℕ) (st : CvState Model)
    (fold : List ℕ × List ℕ)
    (h : (foldTestPreds D fold).length = st.test_preds.length) :
    (cvStepT D k st fold).test_preds.length = st.test_preds.length := by
  simp [cvStepT, List.length_zipWith, h]

/-- When every fold satisfies the preconditions, the fallible fold loop of
`cv` succeeds and computes the total closed form. -/
theorem cvLoop_eq_total (D : CvInput Model Config) (k : ℕ) :
    ∀ (folds : List (List ℕ × List ℕ)) (st : CvState Model),
      (∀ f ∈ folds, GoodFold D f) →
      st.oof_preds.length = D.train_features.rows.length →
      st.test_preds.length = D.test_features.rows.length →
      folds.foldlM (cvStep D k) st = some (folds.foldl (cvStepT D k) st)
  | [], st, _, _, _ => rfl
  | f :: fs, st, hg, hoof, htest => by
    have hgf : GoodFold D f := hg f (List.mem_cons_self f fs)
    rw [List.foldlM_cons, cvStep_eq_total D k st f hgf hoof htest]
    simp only [Option.bind_eq_bind, Option.some_bind, List.foldl_cons]
    exact cvLoop_eq_total D k fs (cvStepT D k st f)
      (fun g hgm => hg g (List.mem_cons_of_mem f hgm))
      (by rw [cvStepT_oof_length]; exact hoof)
      (by rw [cvStepT_test_length D k st f (by rw [htest]; exact hgf.2.2.2.2.2.1)]
          exact htest)

/-- `cv` under the preconditions: the fold loop succeeds and the result is
assembled from the total closed form of the final state. -/
theorem cv_eq_total (D : CvInput Model Config) (folds : List (List ℕ × List ℕ))
    (hg : ∀ f ∈ folds, GoodFold D f) :
    cv D folds =
      match roc_auc_score D.y_train (cvLoopT D folds.length folds).oof_preds with
      | none => .error .metricError
      | some oof_score =>
        .ok { models := (cvLoopT D folds.length folds).models
              oof_preds := (cvLoopT D folds.length folds).oof_preds
              test_preds := (cvLoopT D folds.length folds).test_preds
              feature_importance := meanImportance (cvLoopT D folds.length folds).importances
              evals_result :=
                { oof_score := oof_score
                  cv_score := cvScoreMap (cvLoopT D folds.length folds).cv_score_list
                  n_data := D.train_features.rows.length
                  best_iteration := (cvLoopT D folds.length folds).best_iteration
                  n_features := D.train_features.cols.length
                  feature_importance :=
                    (meanImportance (cvLoopT D folds.length folds).importances).insertionSort
                      impGE } } := by
  unfold cv cvLoopT
  rw [cvLoop_eq_total D folds.length folds (cvInit D) hg (by simp [cvInit])
    (by simp [cvInit])]

/-! Closed forms for the components of the final loop state. -/

theorem foldl_cvStepT_models (D : CvInput Model Config) (k : ℕ) :
    ∀ (folds : List (List ℕ × List ℕ)) (st : CvState Model),
      (folds.foldl (cvStepT D k) st).models = st.models ++ folds.map (foldModel D)
  | [], st => by simp
  | f :: fs, st => by
    rw [List.foldl_cons, foldl_cvStepT_models D k fs]
    simp [cvStepT]

theorem foldl_cvStepT_scores (D : CvInput Model Config) (k : ℕ) :
    ∀ (folds : List (List ℕ × List ℕ)) (st : CvState Model),
      (folds.foldl (cvStepT D k) st).cv_score_list =
        st.cv_score_list ++ folds.map (foldScore D)
  | [], st => by simp
  | f :: fs, st => by
    rw [List.foldl_cons, foldl_cvStepT_scores D k fs]
    simp [cvStepT]

theorem foldl_cvStepT_best_iteration (D : CvInput Model Config) (k : ℕ) :
    ∀ (folds : List (List ℕ × List ℕ)) (st : CvState Model),
      (folds.foldl (cvStepT D k) st).best_iteration =
        st.best_iteration + (folds.map fun f => (foldBestIter D f : ℚ) / (k : ℚ)).sum
  | [], st => by simp
  | f :: fs, st => by
    rw [List.foldl_cons, foldl_cvStepT_best_iteration D k fs]
    simp [cvStepT, add_assoc]

theorem foldl_cvStepT_oof_length (D : CvInput Model Config) (k : ℕ) :
    ∀ (folds : List (List ℕ × List ℕ)) (st : CvState Model),
      (folds.foldl (cvStepT D k) st).oof_preds.length = st.oof_preds.length
  | [], _ => rfl
  | f :: fs, st => by
    rw [List.foldl_cons, foldl_cvStepT_oof_length D k fs, cvStepT_oof_length]

theorem sum_map_div (l : List α) (g : α → ℚ) (c : ℚ) :
    (l.map fun x => g x / c).sum = (l.map g).sum / c := by
  induction l with
  | nil => simp
  | cons a t ih => simp [ih, add_div]

theorem foldl_cvStepT_test_length (D : CvInput Model Config) (k : ℕ) :
    ∀ (folds : List (List ℕ × List ℕ)) (st : CvState Model),
      (∀ f ∈ folds, (foldTestPreds D f).length = D.test_features.rows.length) →
      st.test_preds.length = D.test_features.rows.length →
      (folds.foldl (cvStepT D k) st).test_preds.length = D.test_features.rows.length
  | [], _, _, htest => htest
  | f :: fs, st, hg, htest => by
    rw [List.foldl_cons]
    exact foldl_cvStepT_test_length D k fs _
      (fun g hgm => hg g (List.mem_cons_of_mem f hgm))
      (by rw [cvStepT_test_length D k st f
          (by rw [htest]; exact hg f (List.mem_cons_self f fs))]; exact htest)

/-- Pointwise closed form of the test-prediction accumulator: each slot holds
its initial value plus the fold-indexed sum of `predict(model, test)/k`. -/
theorem foldl_cvStepT_test_getElem? (D : CvInput Model Config) (k : ℕ) :
    ∀ (folds : List (List ℕ × List ℕ)) (st : CvState Model),
      (∀ f ∈ folds, (foldTestPreds D f).length = D.test_features.rows.length) →
      st.test_preds.length = D.test_features.rows.length →
      ∀ t, t < D.test_features.rows.length →
      (folds.foldl (cvStepT D k) st).test_preds[t]? =
        some (st.test_preds.getD t 0 +
          (folds.map fun f => (foldTestPreds D f).getD t 0 / (k : ℚ)).sum)
  | [], st, _, htest, t, ht => by
    have htl : t < st.test_preds.length := htest ▸ ht
    simp [List.getElem?_eq_getElem htl, List.getD_eq_getElem?_getD]
  | f :: fs, st, hg, htest, t, ht => by
    have hf : (foldTestPreds D f).length = D.test_features.rows.length :=
      hg f (List.mem_cons_self f fs)
    have hst' : (cvStepT D k st f).test_preds.length = D.test_features.rows.length := by
      rw [cvStepT_test_length D k st f (by rw [htest]; exact hf)]; exact htest
    rw [List.foldl_cons,
      foldl_cvStepT_test_getElem? D k fs _ (fun g hgm => hg g (List.mem_cons_of_mem f hgm))
        hst' t ht]
    have hzip : (cvStepT D k st f).test_preds.getD t 0 =
        st.test_preds.getD t 0 + (foldTestPreds D f).getD t 0 / (k : ℚ) := by
      show (List.zipWith (fun a b => a + b / (k : ℚ)) st.test_preds
        (foldTestPreds D f)).getD t 0 = _
      rw [List.getD_eq_getElem?_getD, List.getElem?_zipWith,
        List.getElem?_eq_getElem (htest ▸ ht), List.getElem?_eq_getElem (hf ▸ ht)]
      simp [List.getD_eq_getElem?_getD, List.getElem?_eq_getElem (htest ▸ ht),
        List.getElem?_eq_getElem (hf ▸ ht)]
    rw [hzip]
    simp [add_assoc]

/-- A slot listed in no validation index vector is untouched by the whole
loop. -/
theorem foldl_cvStepT_oof_not_mem (D : CvInput Model Config) (k : ℕ) :
    ∀ (folds : List (List ℕ × List ℕ)) (st : CvState Model) (i : ℕ),
      (∀ f ∈ folds, i ∉ f.2) →
      (folds.foldl (cvStepT D k) st).oof_preds[i]? = st.oof_preds[i]?
  | [], _, _, _ => rfl
  | f :: fs, st, i, h => by
    rw [List.foldl_cons,
      foldl_cvStepT_oof_not_mem D k fs _ i fun g hgm => h g (List.mem_cons_of_mem f hgm)]
    exact scatterWrite_getElem?_not_mem f.2 _ _ i (h f (List.mem_cons_self f fs))

/-- A slot listed in the validation index vector of one fold — a fold whose
validation indices are distinct and disjoint from every other fold's — ends
up holding that fold's validation prediction for that position. -/
theorem foldl_cvStepT_oof_hit (D : CvInput Model Config) (k : ℕ) :
    ∀ (folds : List (List ℕ × List ℕ)) (st : CvState Model)
      (f : List ℕ × List ℕ), f ∈ folds →
      List.Pairwise (fun a b => ∀ i ∈ a.2, i ∉ b.2) folds →
      f.2.Nodup → (foldValPreds D f).length = f.2.length →
      ∀ (p : ℕ) (hp : p < f.2.length), f.2[p] < st.oof_preds.length →
      (folds.foldl (cvStepT D k) st).oof_preds[f.2[p]]? = (foldValPreds D f)[p]?
  | [], _, _, hmem, _, _, _, _, _, _ => absurd hmem (List.not_mem_nil _)
  | g :: gs, st, f, hmem, hpw, hnd, hlen, p, hp, hb => by
    rw [List.foldl_cons]
    rcases List.mem_cons.mp hmem with hfg | hft
    · subst hfg
      have hrest : ∀ b ∈ gs, f.2[p] ∉ b.2 := fun b hbm =>
        (List.pairwise_cons.mp hpw).1 b hbm f.2[p] (List.getElem_mem hp)
      rw [foldl_cvStepT_oof_not_mem D k gs _ _ hrest]
      exact scatterWrite_getElem?_hit f.2 _ _ hnd hlen p hp hb
    · have hnotg : f.2[p] ∉ g.2 := by
        intro hin
        exact (List.pairwise_cons.mp hpw).1 f hft f.2[p] hin (List.getElem_mem hp)
      exact foldl_cvStepT_oof_hit D k gs _ f hft (List.pairwise_cons.mp hpw).2 hnd hlen
        p hp (by rw [cvStepT_oof_length]; exact hb)

/-- Looking a feature name up in a single-column frame indexed by the feature
names returns the column entry at the name's (first) position. -/
theorem lookup_zip_of_mem :
    ∀ (fn : List String) (vs : List ℚ) (nm : String), nm ∈ fn → vs.length = fn.length →
      (fn.zip vs).lookup nm = some (vs.getD (fn.indexOf nm) 0)
  | [], _, nm, h, _ => absurd h (List.not_mem_nil nm)
  | a :: fs, vs, nm, h, hlen => by
    cases vs with
    | nil => exact absurd hlen.symm (by simp)
    | cons v vs =>
      rw [List.zip_cons_cons, List.lookup_cons, List.indexOf_cons]
      by_cases he : nm = a
      · subst he
        simp
      · have hba : (a == nm) = false := by simp [Ne.symm he]
        have hab : (nm == a) = false := by simp [he]
        rw [hab, hba]
        simp only [cond_false, List.getD_cons_succ]
        exact lookup_zip_of_mem fs vs nm
          ((List.mem_cons.mp h).resolve_left he) (by simpa using hlen)

theorem filterMap_all_some (l : List α) (f : α → Option β) (g : α → β)
    (h : ∀ a ∈ l, f a = some (g a)) : l.filterMap f = l.map g := by
  induction l with
  | nil => rfl
  | cons a t ih =>
    rw [List.filterMap_cons, h a (List.mem_cons_self a t), List.map_cons,
      ih fun b hb => h b (List.mem_cons_of_mem a hb)]

/-- One inner join of the running importance frame (whose index rows are
exactly the feature names) with a fold's single-column frame (indexed by the
same names): every row survives and gains that fold's value. -/
theorem innerJoin_featureRows (fn : List String) (g : String → List ℚ) (imp : List ℚ)
    (h : imp.length = fn.length) :
    innerJoin (fn.map fun nm => (nm, g nm)) (fn.zip imp) =
      fn.map fun nm => (nm, g nm ++ [imp.getD (fn.indexOf nm) 0]) := by
  unfold innerJoin
  rw [List.filterMap_map]
  exact filterMap_all_some fn _ _ fun nm hnm => by
    simp only [Function.comp_apply, lookup_zip_of_mem fn imp nm hnm h]
    rfl

/-- Closed form of the running importance frame: after any list of folds whose
importance vectors have one entry per feature, the frame still has exactly one
row per supplied feature name, holding that feature's per-fold values. -/
theorem foldl_cvStepT_importances (D : CvInput Model Config) (k : ℕ) :
    ∀ (folds : List (List ℕ × List ℕ)) (g : String → List ℚ) (st : CvState Model),
      (∀ f ∈ folds, (foldImportance D f).length = D.feature_name.length) →
      st.importances = D.feature_name.map (fun nm => (nm, g nm)) →
      (folds.foldl (cvStepT D k) st).importances =
        D.feature_name.map fun nm =>
          (nm, g nm ++ folds.map fun f =>
            (foldImportance D f).getD (D.feature_name.indexOf nm) 0)
  | [], g, st, _, hst => by simpa using hst
  | f :: fs, g, st, hg, hst => by
    rw [List.foldl_cons]
    have hstep : (cvStepT D k st f).importances =
        D.feature_name.map fun nm =>
          (nm, g nm ++ [(foldImportance D f).getD (D.feature_name.indexOf nm) 0]) := by
      show innerJoin st.importances (D.feature_name.zip (foldImportance D f)) = _
      rw [hst]
      exact innerJoin_featureRows D.feature_name g (foldImportance D f)
        (hg f (List.mem_cons_self f fs))
    rw [foldl_cvStepT_importances D k fs _ _
      (fun b hb => hg b (List.mem_cons_of_mem f hb)) hstep]
    simp

/-! The reference AUC and its agreement with the embedded `roc_auc_score`. -/

/-- Reference definition, following the spec's words: the standard area under
the ROC curve of binary 0/1 labels against scores, as the normalised
Mann-Whitney count over all (positive index, negative index) pairs. -/
def refAUC (y s : List ℚ) : ℚ :=
  (∑ i in (Finset.range y.length).filter (fun i => y.getD i 0 = 1),
    ∑ j in (Finset.range y.length).filter (fun j => y.getD j 0 = 0),
      pairWins (s.getD i 0) (s.getD j 0)) /
  ((((Finset.range y.length).filter fun i => y.getD i 0 = 1).card : ℚ) *
    (((Finset.range y.length).filter fun j => y.getD j 0 = 0).card : ℚ))

/-- A sum over a filtered list equals the index-wise filtered sum over the
positions of the original list. -/
theorem filter_map_sum_eq {M : Type} [AddCommMonoid M] (l : List α) (P : α → Bool)
    (g : α → M) (d : α) :
    ((l.filter P).map g).sum =
      ∑ i in Finset.range l.length, if P (l.getD i d) then g (l.getD i d) else 0 := by
  induction l with
  | nil => simp
  | cons a t ih =>
    rw [List.length_cons, Finset.sum_range_succ']
    simp only [List.getD_cons_succ, List.getD_cons_zero]
    rw [← ih, List.filter_cons]
    by_cases h : P a
    · simp [h, add_comm]
    · simp [h]

/-- The filtered-list length as a filtered-range cardinality. -/
theorem filter_length_eq_card (l : List α) (P : α → Bool) (d : α) :
    (l.filter P).length =
      ((Finset.range l.length).filter fun i => P (l.getD i d)).card := by
  induction l with
  | nil => simp
  | cons a t ih =>
    rw [List.length_cons, Finset.card_filter, Finset.sum_range_succ']
    simp only [List.getD_cons_succ, List.getD_cons_zero]
    rw [← Finset.card_filter, ← ih, List.filter_cons]
    by_cases h : P a
    · simp [h]
    · simp [h]

theorem zip_getD (y s : List ℚ) (hlen : y.length = s.length) (j : ℕ) :
    (y.zip s).getD j (0, 0) = (y.getD j 0, s.getD j 0) := by
  by_cases hj : j < y.length
  · have hs : j < s.length := hlen ▸ hj
    have hz : j < (y.zip s).length := by simp [hlen, hs]
    rw [List.getD_eq_getElem?_getD, List.getElem?_eq_getElem hz,
      List.getD_eq_getElem?_getD, List.getElem?_eq_getElem hj,
      List.getD_eq_getElem?_getD, List.getElem?_eq_getElem hs]
    simp
  · have hy : y.length ≤ j := Nat.le_of_not_lt hj
    have hs : s.length ≤ j := hlen ▸ hy
    have hz : (y.zip s).length ≤ j := by simp [hlen]; omega
    rw [List.getD_eq_getElem?_getD, List.getElem?_eq_none hz,
      List.getD_eq_getElem?_getD, List.getElem?_eq_none hy,
      List.getD_eq_getElem?_getD, List.getElem?_eq_none hs]
    rfl

/-- When `roc_auc_score` returns a value on 0/1-encoded labels, that value is
the reference AUC. -/
theorem roc_auc_score_eq_refAUC (y s : List ℚ) (v : ℚ)
    (hbin01 : ∀ v ∈ y, v = 0 ∨ v = 1)
    (h : roc_auc_score y s = some v) : v = refAUC y s := by
  unfold roc_auc_score at h
  split_ifs at h with hc
  · obtain ⟨hlen, -, -, -⟩ := hc
    have hnp : nonPosScores y s = negScores y s := by
      unfold nonPosScores negScores
      congr 1
      apply List.filter_congr
      intro p hp
      obtain ⟨a, b⟩ := p
      rcases hbin01 a (List.of_mem_zip hp).1 with h0 | h1
      · rw [h0]
        simp [decide_eq_decide]
      · rw [h1]
        simp [decide_eq_decide]
    have hzl : (y.zip s).length = y.length := by simp [hlen]
    have hget : ∀ j, ((y.zip s).getD j (0, 0)).1 = y.getD j 0 ∧
        ((y.zip s).getD j (0, 0)).2 = s.getD j 0 := fun j => by
      rw [zip_getD y s hlen j]; exact ⟨rfl, rfl⟩
    have hget1 : ∀ j, ((y.zip s).getD j (0, 0)).1 = y.getD j 0 := fun j => (hget j).1
    have hget2 : ∀ j, ((y.zip s).getD j (0, 0)).2 = s.getD j 0 := fun j => (hget j).2
    have hinner : ∀ a : ℚ, ((negScores y s).map fun b => pairWins a b).sum =
        ∑ j in (Finset.range y.length).filter (fun j => y.getD j 0 = 0),
          pairWins a (s.getD j 0) := by
      intro a
      unfold negScores
      rw [List.map_map,
        filter_map_sum_eq (y.zip s) (fun p => decide (p.1 = 0))
          ((fun b => pairWins a b) ∘ Prod.snd) ((0 : ℚ), (0 : ℚ)), hzl,
        Finset.sum_filter]
      exact Finset.sum_congr rfl fun j _ => by
        simp only [Function.comp_apply]
        rw [hget1 j, hget2 j]
        simp only [decide_eq_true_eq]
    have hnum : aucSum (posScores y s) (negScores y s) =
        ∑ i in (Finset.range y.length).filter (fun i => y.getD i 0 = 1),
          ∑ j in (Finset.range y.length).filter (fun j => y.getD j 0 = 0),
            pairWins (s.getD i 0) (s.getD j 0) := by
      unfold aucSum posScores
      rw [List.map_map,
        filter_map_sum_eq (y.zip s) (fun p => decide (p.1 = 1))
          ((fun a => ((negScores y s).map fun b => pairWins a b).sum) ∘ Prod.snd)
          ((0 : ℚ), (0 : ℚ)), hzl,
        Finset.sum_filter]
      exact Finset.sum_congr rfl fun i _ => by
        simp only [Function.comp_apply]
        rw [hget1 i, hget2 i, hinner (s.getD i 0)]
        simp only [decide_eq_true_eq]
    have hpos : ((posScores y s).length : ℚ) =
        (((Finset.range y.length).filter fun i => y.getD i 0 = 1).card : ℚ) := by
      unfold posScores
      rw [List.length_map,
        filter_length_eq_card (y.zip s) (fun p => decide (p.1 = 1)) ((0 : ℚ), (0 : ℚ)), hzl]
      norm_cast
      congr 1
      exact Finset.filter_congr fun i _ => by rw [hget1 i]; simp
    have hneg : ((negScores y s).length : ℚ) =
        (((Finset.range y.length).filter fun j => y.getD j 0 = 0).card : ℚ) := by
      unfold negScores
      rw [List.length_map,
        filter_length_eq_card (y.zip s) (fun p => decide (p.1 = 0)) ((0 : ℚ), (0 : ℚ)), hzl]
      norm_cast
      congr 1
      exact Finset.filter_congr fun j _ => by rw [hget1 j]; simp
    injection h with hv
    subst hv
    unfold aucValue refAUC
    rw [hnp]
    rw [← hnum]
    rw [← hpos]
    rw [← hneg]

/-- A positive label in range guarantees a positive score entry. -/
theorem posScores_ne_nil (y s : List ℚ) (hlen : y.length = s.length)
    (h1 : (1 : ℚ) ∈ y) : posScores y s ≠ [] := by
  obtain ⟨i, hi, hyi⟩ := List.getElem_of_mem h1
  have hz : i < (y.zip s).length := by simp [hlen]; omega
  have hmem : (y.zip s)[i] ∈ (y.zip s).filter fun p => decide (p.1 = 1) :=
    List.mem_filter.mpr ⟨List.getElem_mem hz, by simp [List.getElem_zip, hyi]⟩
  exact fun hnil => by
    simp only [posScores] at hnil
    rw [List.map_eq_nil_iff] at hnil
    rw [hnil] at hmem
    exact List.not_mem_nil _ hmem

/-- A label other than 1, in range, guarantees a negative score entry. -/
theorem nonPosScores_ne_nil (y s : List ℚ) (hlen : y.length = s.length)
    (v₀ : ℚ) (hv : v₀ ∈ y) (hne : v₀ ≠ 1) : nonPosScores y s ≠ [] := by
  obtain ⟨i, hi, hyi⟩ := List.getElem_of_mem hv
  have hz : i < (y.zip s).length := by simp [hlen]; omega
  have hmem : (y.zip s)[i] ∈ (y.zip s).filter fun p => decide (p.1 ≠ 1) :=
    List.mem_filter.mpr ⟨List.getElem_mem hz, by simp [List.getElem_zip, hyi, hne]⟩
  exact fun hnil => by
    simp only [nonPosScores] at hnil
    rw [List.map_eq_nil_iff] at hnil
    rw [hnil] at hmem
    exact List.not_mem_nil _ hmem

/-- On equal-length vectors with 0/1 labels and both classes present,
`roc_auc_score` succeeds. -/
theorem roc_auc_score_some (y s : List ℚ) (hlen : y.length = s.length)
    (hbin : ∀ v ∈ y, v = 0 ∨ v = 1) (h1 : (1 : ℚ) ∈ y) (h0 : (0 : ℚ) ∈ y) :
    roc_auc_score y s = some (aucValue y s) := by
  unfold roc_auc_score
  exact if_pos ⟨hlen, Or.inl hbin, posScores_ne_nil y s hlen h1,
    nonPosScores_ne_nil y s hlen 0 h0 (by norm_num)⟩

/-- A successful `cv` call computed its reported `oof_score` by
`roc_auc_score` on the labels and the returned out-of-fold vector. -/
theorem cv_ok_roc (D : CvInput Model Config) (folds : List (List ℕ × List ℕ))
    (r : CvResult Model) (hret : cv D folds = .ok r) :
    roc_auc_score D.y_train r.oof_preds = some r.evals_result.oof_score := by
  unfold cv at hret
  split at hret
  · exact absurd hret (by simp)
  · split at hret
    · exact absurd hret (by simp)
    · rename_i st hst v hroc
      injection hret with h'
      subst h'
      exact hroc

/-- Under the per-fold preconditions, a successful `cv` call returns exactly
the assembly of the total closed-form state. -/
theorem cv_ok_total (D : CvInput Model Config) (folds : List (List ℕ × List ℕ))
    (r : CvResult Model) (hgood : ∀ f ∈ folds, GoodFold D f)
    (hret : cv D folds = .ok r) :
    roc_auc_score D.y_train (cvLoopT D folds.length folds).oof_preds =
      some r.evals_result.oof_score ∧
    r = { models := (cvLoopT D folds.length folds).models
          oof_preds := (cvLoopT D folds.length folds).oof_preds
          test_preds := (cvLoopT D folds.length folds).test_preds
          feature_importance := meanImportance (cvLoopT D folds.length folds).importances
          evals_result :=
            { oof_score := r.evals_result.oof_score
              cv_score := cvScoreMap (cvLoopT D folds.length folds).cv_score_list
              n_data := D.train_features.rows.length
              best_iteration := (cvLoopT D folds.length folds).best_iteration
              n_features := D.train_features.cols.length
              feature_importance :=
                (meanImportance (cvLoopT D folds.length folds).importances).insertionSort
                  impGE } } := by
  rw [cv_eq_total D folds hgood] at hret
  split at hret
  · exact absurd hret (by simp)
  · rename_i v hroc
    injection hret with h'
    subst h'
    exact ⟨hroc, rfl⟩

/-! A small concrete instantiation, used to exercise the theorems. -/

/-- A toy deterministic backend: `fit` ignores training and returns the sum of
the validation labels as `best_score`; `predict` sums each row; importances
and best iteration are constants. -/
def demoBackend : Backend Unit Unit :=
  { fit := fun _ _ _ y_val _ => ((), y_val.sum)
    get_best_iteration := fun _ => 7
    predict := fun _ df => df.rows.map List.sum
    get_feature_importance := fun _ => [3, 1] }

/-- Four training rows over two features, one test row, binary labels. -/
def demoInput : CvInput Unit Unit :=
  { B := demoBackend
    y_train := [1, 0, 1, 0]
    train_features := ⟨["f1", "f2"], [[1, 0], [0, 1], [1, 1], [0, 0]]⟩
    test_features := ⟨["f1", "f2"], [[2, 0]]⟩
    feature_name := ["f1", "f2"]
    config := () }

/-- Two folds whose validation sets partition the four training indices. -/
def demoFolds : List (List ℕ × List ℕ) := [([0, 1], [2, 3]), ([2, 3], [0, 1])]

/-- The result a successful `cv` call assembles, in total closed form. -/
def cvOkResult (D : CvInput Model Config) (folds : List (List ℕ × List ℕ)) :
    CvResult Model :=
  { models := (cvLoopT D folds.length folds).models
    oof_preds := (cvLoopT D folds.length folds).oof_preds
    test_preds := (cvLoopT D folds.length folds).test_preds
    feature_importance := meanImportance (cvLoopT D folds.length folds).importances
    evals_result :=
      { oof_score := aucValue D.y_train (cvLoopT D folds.length folds).oof_preds
        cv_score := cvScoreMap (cvLoopT D folds.length folds).cv_score_list
        n_data := D.train_features.rows.length
        best_iteration := (cvLoopT D folds.length folds).best_iteration
        n_features := D.train_features.cols.length
        feature_importance :=
          (meanImportance (cvLoopT D folds.length folds).importances).insertionSort
            impGE } }

/-- Under the per-fold preconditions, with binary labels and both classes
present, `cv` succeeds and returns the closed-form result. -/
theorem cv_ok_exists (D : CvInput Model Config) (folds : List (List ℕ × List ℕ))
    (hgood : ∀ f ∈ folds, GoodFold D f)
    (hlen : D.y_train.length = D.train_features.rows.length)
    (hbin : ∀ v ∈ D.y_train, v = 0 ∨ v = 1)
    (h1 : (1 : ℚ) ∈ D.y_train) (h0 : (0 : ℚ) ∈ D.y_train) :
    cv D folds = .ok (cvOkResult D folds) := by
  have hoofl : (cvLoopT D folds.length folds).oof_preds.length =
      D.train_features.rows.length := by
    unfold cvLoopT
    rw [foldl_cvStepT_oof_length]
    simp [cvInit]
  rw [cv_eq_total D folds hgood,
    roc_auc_score_some D.y_train (cvLoopT D folds.length folds).oof_preds
      (by rw [hoofl]; exact hlen) hbin h1 h0]
  rfl

theorem sum_count_eq_zero (i : ℕ) (folds : List (List ℕ × List ℕ))
    (h : ∀ f ∈ folds, i ∉ f.2) :
    (folds.map fun f => f.2.count i).sum = 0 :=
  List.sum_eq_zero fun x hx => by
    obtain ⟨f, hf, hfx⟩ := List.mem_map.mp hx
    rw [← hfx]
    exact List.count_eq_zero.mpr (h f hf)

/-- Under pairwise-disjoint, duplicate-free validation index vectors, an index
belonging to one of them occurs exactly once in total. -/
theorem sum_count_eq_one (i : ℕ) :
    ∀ folds : List (List ℕ × List ℕ),
      List.Pairwise (fun a b => ∀ j ∈ a.2, j ∉ b.2) folds →
      (∀ f ∈ folds, f.2.Nodup) →
      ∀ f ∈ folds, i ∈ f.2 →
      (folds.map fun f => f.2.count i).sum = 1
  | [], _, _, f, hmem, _ => absurd hmem (List.not_mem_nil f)
  | g :: gs, hpw, hnd, f, hmem, hi => by
    rcases List.mem_cons.mp hmem with hfg | hft
    · subst hfg
      rw [List.map_cons, List.sum_cons,
        List.nodup_iff_count_eq_one.mp (hnd f (List.mem_cons_self f gs)) i hi,
        sum_count_eq_zero i gs fun b hb => (List.pairwise_cons.mp hpw).1 b hb i hi]
    · have hig : i ∉ g.2 := fun hin =>
        (List.pairwise_cons.mp hpw).1 f hft i hin hi
      rw [List.map_cons, List.sum_cons, List.count_eq_zero.mpr hig,
        sum_count_eq_one i gs (List.pairwise_cons.mp hpw).2
          (fun b hb => hnd b (List.mem_cons_of_mem g hb)) f hft hi]

/-- C1: when the validation index sets partition the training index range
(and `cv` succeeds, which the binary-labels hypotheses guarantee), every slot
of the returned out-of-fold vector was written exactly once — its index
occurs exactly once across all validation vectors — and it holds the
prediction that `predict(model, x_val)` of the unique covering fold produced
for that position. -/
theorem C1_oof_partition (D : CvInput Model Config) (folds : List (List ℕ × List ℕ))
    (hgood : ∀ f ∈ folds, GoodFold D f)
    (hlen : D.y_train.length = D.train_features.rows.length)
    (hdisj : List.Pairwise (fun a b => ∀ i ∈ a.2, i ∉ b.2) folds)
    (hnd : ∀ f ∈ folds, f.2.Nodup)
    (hcover : ∀ i < D.train_features.rows.length, ∃ f ∈ folds, i ∈ f.2)
    (hbin : ∀ v ∈ D.y_train, v = 0 ∨ v = 1)
    (h1 : (1 : ℚ) ∈ D.y_train) (h0 : (0 : ℚ) ∈ D.y_train) :
    ∃ r, cv D folds = .ok r ∧
      (∀ i < D.train_features.rows.length,
        (folds.map fun f => f.2.count i).sum = 1) ∧
      ∀ f ∈ folds, ∀ (p : ℕ) (hp : p < f.2.length),
        r.oof_preds[f.2[p]]? = (foldValPreds D f)[p]? := by
  refine ⟨cvOkResult D folds, cv_ok_exists D folds hgood hlen hbin h1 h0, ?_, ?_⟩
  · intro i hi
    obtain ⟨f, hf, hfi⟩ := hcover i hi
    exact sum_count_eq_one i folds hdisj hnd f hf hfi
  · intro f hf p hp
    show (cvLoopT D folds.length folds).oof_preds[f.2[p]]? = (foldValPreds D f)[p]?
    exact foldl_cvStepT_oof_hit D folds.length folds (cvInit D) f hf hdisj
      (hnd f hf) (hgood f hf).2.2.2.2.1 p hp
      (by simpa [cvInit] using (hgood f hf).2.2.1 f.2[p] (List.getElem_mem hp))

/-- C1 witness at the concrete demo instance. -/
theorem C1_oof_partition_witness :
    ∃ r, cv demoInput demoFolds = .ok r ∧
      (∀ i < demoInput.train_features.rows.length,
        (demoFolds.map fun f => f.2.count i).sum = 1) ∧
      ∀ f ∈ demoFolds, ∀ (p : ℕ) (hp : p < f.2.length),
        r.oof_preds[f.2[p]]? = (foldValPreds demoInput f)[p]? :=
  C1_oof_partition demoInput demoFolds (by decide) (by decide) (by decide)
    (by decide) (by decide) (by decide) (by decide) (by decide)

/-- C2: the returned test-prediction vector is, slot by slot, the unweighted
arithmetic mean over the folds of `predict(model, test_features)`. -/
theorem C2_test_mean (D : CvInput Model Config) (folds : List (List ℕ × List ℕ))
    (hgood : ∀ f ∈ folds, GoodFold D f)
    (hlen : D.y_train.length = D.train_features.rows.length)
    (hk : 1 ≤ folds.length)
    (hbin : ∀ v ∈ D.y_train, v = 0 ∨ v = 1)
    (h1 : (1 : ℚ) ∈ D.y_train) (h0 : (0 : ℚ) ∈ D.y_train) :
    ∃ r, cv D folds = .ok r ∧
      r.test_preds = (List.range D.test_features.rows.length).map fun t =>
        (folds.map fun f => (foldTestPreds D f).getD t 0).sum / (folds.length : ℚ) := by
  refine ⟨cvOkResult D folds, cv_ok_exists D folds hgood hlen hbin h1 h0, ?_⟩
  show (cvLoopT D folds.length folds).test_preds = _
  have htl : ∀ f ∈ folds, (foldTestPreds D f).length = D.test_features.rows.length :=
    fun f hf => (hgood f hf).2.2.2.2.2.1
  have hinit : (cvInit D).test_preds.length =
      D.test_features.rows.length := by simp [cvInit]
  apply List.ext_getElem?
  intro t
  by_cases ht : t < D.test_features.rows.length
  · show (folds.foldl (cvStepT D folds.length) (cvInit D)).test_preds[t]? = _
    rw [foldl_cvStepT_test_getElem? D folds.length folds (cvInit D) htl hinit t ht]
    have hzero : (cvInit D).test_preds.getD t 0 = 0 := by
      simp [cvInit, List.getD_eq_getElem?_getD, List.getElem?_replicate_of_lt ht]
    rw [hzero, zero_add, sum_map_div,
      List.getElem?_map, List.getElem?_range ht]
    rfl
  · have hL : (cvLoopT D folds.length folds).test_preds.length =
        D.test_features.rows.length :=
      foldl_cvStepT_test_length D folds.length folds (cvInit D) htl hinit
    rw [List.getElem?_eq_none (by rw [hL]; omega),
      List.getElem?_eq_none (by simp; omega)]

/-- C2 witness at the concrete demo instance. -/
theorem C2_test_mean_witness :
    ∃ r, cv demoInput demoFolds = .ok r ∧
      r.test_preds = (List.range demoInput.test_features.rows.length).map fun t =>
        (demoFolds.map fun f => (foldTestPreds demoInput f).getD t 0).sum /
          (demoFolds.length : ℚ) :=
  C2_test_mean demoInput demoFolds (by decide) (by decide) (by decide) (by decide)
    (by decide) (by decide)

/-- C3: with binary 0/1 labels (and both classes present, without which the
call raises instead of returning), the reported `oof_score` equals the
reference AUC of the labels against the returned out-of-fold vector. -/
theorem C3_oof_score_is_refAUC (D : CvInput Model Config)
    (folds : List (List ℕ × List ℕ))
    (hgood : ∀ f ∈ folds, GoodFold D f)
    (hlen : D.y_train.length = D.train_features.rows.length)
    (hbin : ∀ v ∈ D.y_train, v = 0 ∨ v = 1)
    (h1 : (1 : ℚ) ∈ D.y_train) (h0 : (0 : ℚ) ∈ D.y_train) :
    ∃ r, cv D folds = .ok r ∧
      r.evals_result.oof_score = refAUC D.y_train r.oof_preds := by
  refine ⟨cvOkResult D folds, cv_ok_exists D folds hgood hlen hbin h1 h0, ?_⟩
  exact roc_auc_score_eq_refAUC _ _ _ hbin
    (cv_ok_roc D folds (cvOkResult D folds) (cv_ok_exists D folds hgood hlen hbin h1 h0))

/-- C3 witness at the concrete demo instance. -/
theorem C3_oof_score_is_refAUC_witness :
    ∃ r, cv demoInput demoFolds = .ok r ∧
      r.evals_result.oof_score = refAUC demoInput.y_train r.oof_preds :=
  C3_oof_score_is_refAUC demoInput demoFolds (by decide) (by decide) (by decide)
    (by decide) (by decide)

/-- C5: the reported averaged best iteration is the unweighted arithmetic mean
of the per-fold `get_best_iteration` values, regardless of fold sizes. -/
theorem C5_best_iteration_mean (D : CvInput Model Config)
    (folds : List (List ℕ × List ℕ))
    (hgood : ∀ f ∈ folds, GoodFold D f)
    (hlen : D.y_train.length = D.train_features.rows.length)
    (hk : 1 ≤ folds.length)
    (hbin : ∀ v ∈ D.y_train, v = 0 ∨ v = 1)
    (h1 : (1 : ℚ) ∈ D.y_train) (h0 : (0 : ℚ) ∈ D.y_train) :
    ∃ r, cv D folds = .ok r ∧
      r.evals_result.best_iteration =
        (folds.map fun f => (foldBestIter D f : ℚ)).sum / (folds.length : ℚ) := by
  refine ⟨cvOkResult D folds, cv_ok_exists D folds hgood hlen hbin h1 h0, ?_⟩
  show (cvLoopT D folds.length folds).best_iteration = _
  unfold cvLoopT
  rw [foldl_cvStepT_best_iteration, sum_map_div]
  simp [cvInit]

/-- C5 witness at the concrete demo instance. -/
theorem C5_best_iteration_mean_witness :
    ∃ r, cv demoInput demoFolds = .ok r ∧
      r.evals_result.best_iteration =
        (demoFolds.map fun f => (foldBestIter demoInput f : ℚ)).sum /
          (demoFolds.length : ℚ) :=
  C5_best_iteration_mean demoInput demoFolds (by decide) (by decide) (by decide)
    (by decide) (by decide) (by decide)

/-- C4: the returned feature-importance table has one row per feature name
common to all per-fold importance columns — and since every per-fold column
is keyed by the supplied feature-name list, that common set is exactly the
supplied list — with each value the arithmetic mean of the per-fold values. -/
theorem C4_importance_inner_join_mean (D : CvInput Model Config)
    (folds : List (List ℕ × List ℕ))
    (hgood : ∀ f ∈ folds, GoodFold D f)
    (hlen : D.y_train.length = D.train_features.rows.length)
    (hnodup : D.feature_name.Nodup)
    (hk : 1 ≤ folds.length)
    (hbin : ∀ v ∈ D.y_train, v = 0 ∨ v = 1)
    (h1 : (1 : ℚ) ∈ D.y_train) (h0 : (0 : ℚ) ∈ D.y_train) :
    ∃ r, cv D folds = .ok r ∧
      r.feature_importance = (D.feature_name.map fun nm =>
        (nm, (folds.map fun f =>
          (foldImportance D f).getD (D.feature_name.indexOf nm) 0).sum /
          (folds.length : ℚ))) ∧
      ∀ nm : String,
        nm ∈ r.feature_importance.map Prod.fst ↔
          ∀ f ∈ folds, nm ∈ (D.feature_name.zip (foldImportance D f)).map Prod.fst := by
  refine ⟨cvOkResult D folds, cv_ok_exists D folds hgood hlen hbin h1 h0, ?_, ?_⟩
  · show meanImportance (cvLoopT D folds.length folds).importances = _
    unfold cvLoopT
    rw [foldl_cvStepT_importances D folds.length folds (fun _ => []) (cvInit D)
      (fun f hf => (hgood f hf).2.2.2.2.2.2) rfl]
    unfold meanImportance
    rw [List.map_map]
    refine List.map_congr_left fun nm _ => ?_
    simp
  · intro nm
    have hfst : (cvOkResult D folds).feature_importance.map Prod.fst =
        D.feature_name := by
      show (meanImportance (cvLoopT D folds.length folds).importances).map Prod.fst = _
      unfold cvLoopT
      rw [foldl_cvStepT_importances D folds.length folds (fun _ => []) (cvInit D)
        (fun f hf => (hgood f hf).2.2.2.2.2.2) rfl]
      unfold meanImportance
      simp only [List.map_map]
      exact (List.map_congr_left fun a _ => rfl).trans (List.map_id _)
    rw [hfst]
    constructor
    · intro hnm f hf
      rw [List.map_fst_zip _ _ (le_of_eq (hgood f hf).2.2.2.2.2.2.symm)]
      exact hnm
    · intro hall
      obtain ⟨f0, hf0⟩ := List.exists_mem_of_ne_nil folds
        (List.ne_nil_of_length_pos hk)
      have := hall f0 hf0
      rwa [List.map_fst_zip _ _ (le_of_eq (hgood f0 hf0).2.2.2.2.2.2.symm)] at this

/-- C4 witness at the concrete demo instance. -/
theorem C4_importance_inner_join_mean_witness :
    ∃ r, cv demoInput demoFolds = .ok r ∧
      r.feature_importance = (demoInput.feature_name.map fun nm =>
        (nm, (demoFolds.map fun f =>
          (foldImportance demoInput f).getD (demoInput.feature_name.indexOf nm) 0).sum /
          (demoFolds.length : ℚ))) ∧
      ∀ nm : String,
        nm ∈ r.feature_importance.map Prod.fst ↔
          ∀ f ∈ demoFolds, nm ∈
            (demoInput.feature_name.zip (foldImportance demoInput f)).map Prod.fst :=
  C4_importance_inner_join_mean demoInput demoFolds (by decide) (by decide)
    (by decide) (by decide) (by decide) (by decide) (by decide)

/-- C9: the out-of-fold vector is zero-initialised, so a training index
belonging to no fold's validation set still holds 0 in the returned vector —
indistinguishable from a genuine prediction of 0. -/
theorem C9_uncovered_slot_zero (D : CvInput Model Config)
    (folds : List (List ℕ × List ℕ))
    (hgood : ∀ f ∈ folds, GoodFold D f)
    (hlen : D.y_train.length = D.train_features.rows.length)
    (hbin : ∀ v ∈ D.y_train, v = 0 ∨ v = 1)
    (h1 : (1 : ℚ) ∈ D.y_train) (h0 : (0 : ℚ) ∈ D.y_train)
    (i : ℕ) (hi : i < D.train_features.rows.length)
    (hnm : ∀ f ∈ folds, i ∉ f.2) :
    ∃ r, cv D folds = .ok r ∧ r.oof_preds[i]? = some 0 := by
  refine ⟨cvOkResult D folds, cv_ok_exists D folds hgood hlen hbin h1 h0, ?_⟩
  show (cvLoopT D folds.length folds).oof_preds[i]? = some 0
  unfold cvLoopT
  rw [foldl_cvStepT_oof_not_mem D folds.length folds (cvInit D) i hnm]
  simp [cvInit, List.getElem?_replicate_of_lt hi]

/-- A single fold whose validation set misses training indices 0 and 1. -/
def demoFoldsHalf : List (List ℕ × List ℕ) := [([0, 1], [2, 3])]

/-- C9 witness: index 0 is in no validation set and reads back 0. -/
theorem C9_uncovered_slot_zero_witness :
    ∃ r, cv demoInput demoFoldsHalf = .ok r ∧ r.oof_preds[0]? = some 0 :=
  C9_uncovered_slot_zero demoInput demoFoldsHalf (by decide) (by decide) (by decide)
    (by decide) (by decide) 0 (by decide) (by decide)

/-- C10: every per-fold importance column is keyed by the supplied
feature-name list, so after each of the loop's inner joins the running
importance frame's row set is exactly that list, whatever the fold count. -/
theorem C10_importance_rows_stable (D : CvInput Model Config)
    (folds : List (List ℕ × List ℕ))
    (hgood : ∀ f ∈ folds, GoodFold D f)
    (hnodup : D.feature_name.Nodup) :
    ∀ m ≤ folds.length, ∃ stm,
      (folds.take m).foldlM (cvStep D folds.length) (cvInit D) = some stm ∧
      stm.importances.map Prod.fst = D.feature_name := by
  intro m _
  have hgood' : ∀ f ∈ folds.take m, GoodFold D f := fun f hf =>
    hgood f (List.mem_of_mem_take hf)
  refine ⟨(folds.take m).foldl (cvStepT D folds.length) (cvInit D),
    cvLoop_eq_total D folds.length (folds.take m) (cvInit D) hgood'
      (by simp [cvInit]) (by simp [cvInit]), ?_⟩
  rw [foldl_cvStepT_importances D folds.length (folds.take m) (fun _ => []) (cvInit D)
    (fun f hf => (hgood' f hf).2.2.2.2.2.2) rfl]
  simp only [List.map_map]
  exact (List.map_congr_left fun a _ => rfl).trans (List.map_id _)

theorem cvScoreMap_length (scores : List ℚ) :
    (cvScoreMap scores).length = scores.length := by
  simp [cvScoreMap]

theorem cvScoreMap_getElem? (scores : List ℚ) (j : ℕ) (hj : j < scores.length) :
    (cvScoreMap scores)[j]? = some ("cv" ++ toString (j + 1), scores.getD j 0) := by
  unfold cvScoreMap
  rw [List.getElem?_map]
  show Option.map _ ((List.enumFrom 0 scores)[j]?) = _
  rw [List.getElem?_enumFrom, List.getElem?_eq_getElem hj]
  simp [List.getD_eq_getElem?_getD, List.getElem?_eq_getElem hj]

/-- C8: a successful call's report carries the `roc_auc_score` value as
`oof_score`; a `cv_score` mapping with exactly one entry per fold, keyed
`cv1`, `cv2`, … in fold-supply order with that fold's `best_score`; the
training row count; the averaged best iteration; the feature count; and the
feature-importance mapping sorted by value descending. -/
theorem C8_report_fields (D : CvInput Model Config)
    (folds : List (List ℕ × List ℕ))
    (hgood : ∀ f ∈ folds, GoodFold D f)
    (hlen : D.y_train.length = D.train_features.rows.length)
    (hbin : ∀ v ∈ D.y_train, v = 0 ∨ v = 1)
    (h1 : (1 : ℚ) ∈ D.y_train) (h0 : (0 : ℚ) ∈ D.y_train) :
    ∃ r, cv D folds = .ok r ∧
      roc_auc_score D.y_train r.oof_preds = some r.evals_result.oof_score ∧
      r.evals_result.cv_score.length = folds.length ∧
      (∀ j < folds.length,
        r.evals_result.cv_score[j]? =
          some ("cv" ++ toString (j + 1), foldScore D (folds.getD j ([], [])))) ∧
      r.evals_result.n_data = D.train_features.rows.length ∧
      r.evals_result.best_iteration =
        (folds.map fun f => (foldBestIter D f : ℚ)).sum / (folds.length : ℚ) ∧
      r.evals_result.n_features = D.train_features.cols.length ∧
      r.evals_result.feature_importance.Perm r.feature_importance ∧
      r.evals_result.feature_importance.Sorted impGE := by
  have hok := cv_ok_exists D folds hgood hlen hbin h1 h0
  have hsc : (cvLoopT D folds.length folds).cv_score_list =
      folds.map (foldScore D) := by
    unfold cvLoopT
    rw [foldl_cvStepT_scores]
    simp [cvInit]
  refine ⟨cvOkResult D folds, hok, cv_ok_roc D folds _ hok, ?_, ?_, rfl, ?_, rfl,
    List.perm_insertionSort impGE _, List.sorted_insertionSort impGE _⟩
  · show (cvScoreMap (cvLoopT D folds.length folds).cv_score_list).length = _
    rw [cvScoreMap_length, hsc, List.length_map]
  · intro j hj
    show (cvScoreMap (cvLoopT D folds.length folds).cv_score_list)[j]? = _
    rw [hsc, cvScoreMap_getElem? _ j (by simpa using hj)]
    simp [List.getD_eq_getElem?_getD, List.getElem?_map, List.getElem?_eq_getElem hj]
  · show (cvLoopT D folds.length folds).best_iteration = _
    unfold cvLoopT
    rw [foldl_cvStepT_best_iteration, sum_map_div]
    simp [cvInit]

/-- C8 witness at the concrete demo instance. -/
theorem C8_report_fields_witness :
    ∃ r, cv demoInput demoFolds = .ok r ∧
      roc_auc_score demoInput.y_train r.oof_preds = some r.evals_result.oof_score ∧
      r.evals_result.cv_score.length = demoFolds.length ∧
      (∀ j < demoFolds.length,
        r.evals_result.cv_score[j]? =
          some ("cv" ++ toString (j + 1), foldScore demoInput (demoFolds.getD j ([], [])))) ∧
      r.evals_result.n_data = demoInput.train_features.rows.length ∧
      r.evals_result.best_iteration =
        (demoFolds.map fun f => (foldBestIter demoInput f : ℚ)).sum /
          (demoFolds.length : ℚ) ∧
      r.evals_result.n_features = demoInput.train_features.cols.length ∧
      r.evals_result.feature_importance.Perm r.feature_importance ∧
      r.evals_result.feature_importance.Sorted impGE :=
  C8_report_fields demoInput demoFolds (by decide) (by decide) (by decide)
    (by decide) (by decide)

/-- Permuting the fold list leaves the final out-of-fold vector unchanged when
validation sets are pairwise disjoint and duplicate-free. -/
theorem cvLoopT_oof_perm (D : CvInput Model Config) (k k₂ : ℕ)
    (folds folds₂ : List (List ℕ × List ℕ)) (hperm : folds.Perm folds₂)
    (hgood : ∀ f ∈ folds, GoodFold D f)
    (hdisj : List.Pairwise (fun a b => ∀ i ∈ a.2, i ∉ b.2) folds)
    (hnd : ∀ f ∈ folds, f.2.Nodup) :
    (cvLoopT D k₂ folds₂).oof_preds = (cvLoopT D k folds).oof_preds := by
  have hsymm : ∀ {a b : List ℕ × List ℕ},
      (∀ i ∈ a.2, i ∉ b.2) → ∀ i ∈ b.2, i ∉ a.2 :=
    fun h i hib hia => h i hia hib
  have hdisj₂ : List.Pairwise (fun a b => ∀ i ∈ a.2, i ∉ b.2) folds₂ :=
    (hperm.pairwise_iff hsymm).mp hdisj
  have hgood₂ : ∀ f ∈ folds₂, GoodFold D f := fun f hf =>
    hgood f (hperm.mem_iff.mpr hf)
  apply List.ext_getElem?
  intro i
  show (folds₂.foldl (cvStepT D k₂) (cvInit D)).oof_preds[i]? =
    (folds.foldl (cvStepT D k) (cvInit D)).oof_preds[i]?
  by_cases hex : ∃ f ∈ folds, i ∈ f.2
  · obtain ⟨f, hf, hfi⟩ := hex
    obtain ⟨p, hp, hpe⟩ := List.getElem_of_mem hfi
    have hb : f.2[p] < (cvInit D).oof_preds.length := by
      simpa [cvInit, hpe] using (hgood f hf).2.2.1 i hfi
    rw [← hpe]
    rw [foldl_cvStepT_oof_hit D k₂ folds₂ (cvInit D) f (hperm.mem_iff.mp hf) hdisj₂
        (hnd f hf) (hgood f hf).2.2.2.2.1 p hp hb,
      foldl_cvStepT_oof_hit D k folds (cvInit D) f hf hdisj
        (hnd f hf) (hgood f hf).2.2.2.2.1 p hp hb]
  · push_neg at hex
    rw [foldl_cvStepT_oof_not_mem D k₂ folds₂ (cvInit D) i
        (fun f hf => hex f (hperm.mem_iff.mpr hf)),
      foldl_cvStepT_oof_not_mem D k folds (cvInit D) i hex]

/-- Permuting the fold list leaves the final test-prediction vector
unchanged. -/
theorem cvLoopT_test_perm (D : CvInput Model Config)
    (folds folds₂ : List (List ℕ × List ℕ)) (hperm : folds.Perm folds₂)
    (hgood : ∀ f ∈ folds, GoodFold D f) :
    (cvLoopT D folds₂.length folds₂).test_preds =
      (cvLoopT D folds.length folds).test_preds := by
  have hgood₂ : ∀ f ∈ folds₂, GoodFold D f := fun f hf =>
    hgood f (hperm.mem_iff.mpr hf)
  have ht1 : ∀ f ∈ folds, (foldTestPreds D f).length = D.test_features.rows.length :=
    fun f hf => (hgood f hf).2.2.2.2.2.1
  have ht2 : ∀ f ∈ folds₂, (foldTestPreds D f).length = D.test_features.rows.length :=
    fun f hf => (hgood₂ f hf).2.2.2.2.2.1
  have hinit : (cvInit D).test_preds.length =
      D.test_features.rows.length := by simp [cvInit]
  have hk : folds₂.length = folds.length := hperm.length_eq.symm
  apply List.ext_getElem?
  intro t
  show (folds₂.foldl (cvStepT D folds₂.length) (cvInit D)).test_preds[t]? =
    (folds.foldl (cvStepT D folds.length) (cvInit D)).test_preds[t]?
  by_cases ht : t < D.test_features.rows.length
  · rw [foldl_cvStepT_test_getElem? D folds₂.length folds₂ (cvInit D) ht2 hinit t ht,
      foldl_cvStepT_test_getElem? D folds.length folds (cvInit D) ht1 hinit t ht, hk,
      (hperm.map fun f => (foldTestPreds D f).getD t 0 / (folds.length : ℚ)).sum_eq]
  · rw [List.getElem?_eq_none
        (by rw [foldl_cvStepT_test_length D folds₂.length folds₂ (cvInit D) ht2 hinit]; omega),
      List.getElem?_eq_none
        (by rw [foldl_cvStepT_test_length D folds.length folds (cvInit D) ht1 hinit]; omega)]

/-- Permuting the fold list leaves the mean feature-importance table
unchanged. -/
theorem cvLoopT_importance_perm (D : CvInput Model Config)
    (folds folds₂ : List (List ℕ × List ℕ)) (hperm : folds.Perm folds₂)
    (hgood : ∀ f ∈ folds, GoodFold D f) :
    meanImportance (cvLoopT D folds₂.length folds₂).importances =
      meanImportance (cvLoopT D folds.length folds).importances := by
  have hgood₂ : ∀ f ∈ folds₂, GoodFold D f := fun f hf =>
    hgood f (hperm.mem_iff.mpr hf)
  show meanImportance ((folds₂.foldl (cvStepT D folds₂.length) (cvInit D)).importances) =
    meanImportance ((folds.foldl (cvStepT D folds.length) (cvInit D)).importances)
  rw [foldl_cvStepT_importances D folds₂.length folds₂ (fun _ => []) (cvInit D)
      (fun f hf => (hgood₂ f hf).2.2.2.2.2.2) rfl,
    foldl_cvStepT_importances D folds.length folds (fun _ => []) (cvInit D)
      (fun f hf => (hgood f hf).2.2.2.2.2.2) rfl]
  unfold meanImportance
  rw [List.map_map, List.map_map]
  apply List.map_congr_left
  intro nm _
  have hv := fun f => (foldImportance D f).getD (D.feature_name.indexOf nm) 0
  show (nm, (([] : List ℚ) ++ folds₂.map fun f =>
      (foldImportance D f).getD (D.feature_name.indexOf nm) 0).sum /
        ((([] : List ℚ) ++ folds₂.map fun f =>
          (foldImportance D f).getD (D.feature_name.indexOf nm) 0).length : ℚ)) =
    (nm, (([] : List ℚ) ++ folds.map fun f =>
      (foldImportance D f).getD (D.feature_name.indexOf nm) 0).sum /
        ((([] : List ℚ) ++ folds.map fun f =>
          (foldImportance D f).getD (D.feature_name.indexOf nm) 0).length : ℚ))
  rw [List.nil_append, List.nil_append,
    (hperm.map fun f => (foldImportance D f).getD (D.feature_name.indexOf nm) 0).sum_eq,
    List.length_map, List.length_map, hperm.length_eq]

/-- C6: the aggregate results of `cv` — out-of-fold vector, test vector, mean
importance table, averaged best iteration, and `oof_score` — are invariant
under permuting the supplied fold list (the backend being a pure function is
deterministic); only the order of the returned models and scores follows the
supplied fold order. -/
theorem C6_fold_order_invariance (D : CvInput Model Config)
    (folds folds₂ : List (List ℕ × List ℕ)) (hperm : folds.Perm folds₂)
    (hgood : ∀ f ∈ folds, GoodFold D f)
    (hlen : D.y_train.length = D.train_features.rows.length)
    (hdisj : List.Pairwise (fun a b => ∀ i ∈ a.2, i ∉ b.2) folds)
    (hnd : ∀ f ∈ folds, f.2.Nodup)
    (hbin : ∀ v ∈ D.y_train, v = 0 ∨ v = 1)
    (h1 : (1 : ℚ) ∈ D.y_train) (h0 : (0 : ℚ) ∈ D.y_train) :
    ∃ r r₂, cv D folds = .ok r ∧ cv D folds₂ = .ok r₂ ∧
      r₂.oof_preds = r.oof_preds ∧
      r₂.test_preds = r.test_preds ∧
      r₂.feature_importance = r.feature_importance ∧
      r₂.evals_result.best_iteration = r.evals_result.best_iteration ∧
      r₂.evals_result.oof_score = r.evals_result.oof_score ∧
      r.models = folds.map (foldModel D) ∧
      r₂.models = folds₂.map (foldModel D) := by
  have hgood₂ : ∀ f ∈ folds₂, GoodFold D f := fun f hf =>
    hgood f (hperm.mem_iff.mpr hf)
  have hoof := cvLoopT_oof_perm D folds.length folds₂.length folds folds₂ hperm
    hgood hdisj hnd
  refine ⟨cvOkResult D folds, cvOkResult D folds₂,
    cv_ok_exists D folds hgood hlen hbin h1 h0,
    cv_ok_exists D folds₂ hgood₂ hlen hbin h1 h0,
    hoof, cvLoopT_test_perm D folds folds₂ hperm hgood,
    cvLoopT_importance_perm D folds folds₂ hperm hgood, ?_, ?_, ?_, ?_⟩
  · show (cvLoopT D folds₂.length folds₂).best_iteration =
      (cvLoopT D folds.length folds).best_iteration
    unfold cvLoopT
    rw [foldl_cvStepT_best_iteration, foldl_cvStepT_best_iteration,
      sum_map_div, sum_map_div,
      (hperm.map fun f => (foldBestIter D f : ℚ)).sum_eq, hperm.length_eq]
  · show aucValue D.y_train (cvLoopT D folds₂.length folds₂).oof_preds =
      aucValue D.y_train (cvLoopT D folds.length folds).oof_preds
    rw [hoof]
  · show (cvLoopT D folds.length folds).models = folds.map (foldModel D)
    unfold cvLoopT
    rw [foldl_cvStepT_models]
    simp [cvInit]
  · show (cvLoopT D folds₂.length folds₂).models = folds₂.map (foldModel D)
    unfold cvLoopT
    rw [foldl_cvStepT_models]
    simp [cvInit]

/-- The demo folds in the swapped order. -/
def demoFoldsSwapped : List (List ℕ × List ℕ) := [([2, 3], [0, 1]), ([0, 1], [2, 3])]

/-- C6 witness: swapping the two demo folds leaves every aggregate output
unchanged. -/
theorem C6_fold_order_invariance_witness :
    ∃ r r₂, cv demoInput demoFolds = .ok r ∧ cv demoInput demoFoldsSwapped = .ok r₂ ∧
      r₂.oof_preds = r.oof_preds ∧
      r₂.test_preds = r.test_preds ∧
      r₂.feature_importance = r.feature_importance ∧
      r₂.evals_result.best_iteration = r.evals_result.best_iteration ∧
      r₂.evals_result.oof_score = r.evals_result.oof_score ∧
      r.models = demoFolds.map (foldModel demoInput) ∧
      r₂.models = demoFoldsSwapped.map (foldModel demoInput) :=
  C6_fold_order_invariance demoInput demoFolds demoFoldsSwapped (by decide)
    (by decide) (by decide) (by decide) (by decide) (by decide) (by decide)
    (by decide)

/-- C10 witness at the concrete demo instance, after both folds. -/
theorem C10_importance_rows_stable_witness :
    ∃ stm, (demoFolds.take 2).foldlM (cvStep demoInput demoFolds.length)
        (cvInit demoInput) = some stm ∧
      stm.importances.map Prod.fst = demoInput.feature_name :=
  C10_importance_rows_stable demoInput demoFolds (by decide) (by decide) 2 (by decide)

end KaggleCV
